import Mathlib

/-!
Shallow embedding of `scripts/transaction_graph_generator.py` (AMLSim).

Conventions used throughout this file:
* Python's global `random` module state is modelled by an explicit `Rng`
  value threaded through every definition that draws randomness; `random.seed`
  corresponds to replacing the state by `Rng.ofSeed`.  The concrete generator
  is a linear congruential generator; the theorems below never depend on the
  distribution of its values, only on determinism and on value membership.
* Python floats (amounts, `random.uniform`) are modelled as `Int`: every claim
  settled here depends only on comparisons and sums of the drawn values, never
  on real-number rounding.
* Degrees and counts are modelled as `Nat` (the program only ever builds them
  from repetition counts), amounts/dates as `Int`.
* Fallible Python code (exceptions) is modelled with `Except String` /
  `Option`; unbounded `while` loops are modelled with an explicit fuel
  parameter and return `none` when the fuel runs out.
-/

namespace AMLSim

/-- State of the (single, global) pseudo-random generator of the `random`
module.  A concrete LCG stands in for the Mersenne twister: all proved
properties are independent of the actual values drawn. -/
structure Rng where
  s : Nat
deriving Repr, DecidableEq

/-- Models `random.seed(seed)`: the global state is replaced by a state that is
a function of the seed alone. -/
def Rng.ofSeed (seed : Nat) : Rng := ⟨seed⟩

/-- Draw one pseudo-random natural number and the successor state. -/
def Rng.next (r : Rng) : Nat × Rng :=
  let t := (1103515245 * r.s + 12345) % 2147483648
  (t, ⟨t⟩)

/-- Models `random.randrange(lo, hi)` (an integer in `[lo, hi)`). -/
def Rng.randrange (r : Rng) (lo hi : Int) : Int × Rng :=
  let (k, r1) := r.next
  if lo < hi then (lo + (k : Int) % (hi - lo), r1) else (lo, r1)

/-- Models `random.uniform(lo, hi)` (here: an integer draw in `[lo, hi)`). -/
def Rng.uniformInt (r : Rng) (lo hi : Int) : Int × Rng :=
  let (k, r1) := r.next
  if lo < hi then (lo + (k : Int) % (hi - lo), r1) else (lo, r1)

/-- Models `random.choice(l)` on a list of account IDs: `IndexError` (`none`)
on an empty list, otherwise some element of the list. -/
def Rng.choiceNat (r : Rng) (l : List Nat) : Option (Nat × Rng) :=
  match l with
  | [] => none
  | _ :: _ =>
    let (k, r1) := r.next
    some (l.getD (k % l.length) 0, r1)

/-- One alert transaction as produced inside `add_alert_pattern`
(`sub_g.add_edge(src, dst, amount=amount, date=date)`). -/
structure AlertTx where
  src : Nat
  dst : Nat
  amount : Int
  date : Int
deriving Repr, DecidableEq, Inhabited

/-- Accumulated `total_amount` of a transaction list. -/
def sumAmounts (txs : List AlertTx) : Int := (txs.map AlertTx.amount).sum

/-- Loop body of the `fan_in` / `fan_out` patterns
(`transaction_graph_generator.py` lines 701-709 and 716-725): cycle through
`ring` (the non-subject members), generating one transaction per step, and
break as soon as `transaction_count >= transaction_freq and
total_amount >= aggregated_amount`.  `toTx` is `true` for `fan_in`
(member -> subject) and `false` for `fan_out` (subject -> member).
The loop is given fuel; `none` models non-termination within the fuel. -/
def fanLoop (ring : List Nat) (subject : Nat) (toSubject : Bool)
    (minA maxA startD endD : Int) (freq : Nat) (aggregated : Int) :
    Nat → Nat → Nat → Int → Rng → Option (List AlertTx × Rng)
  | 0, _, _, _, _ => none
  | fuel + 1, k, cnt, tot, r =>
    let other := ring.getD (k % ring.length) 0
    let pair := if toSubject then (other, subject) else (subject, other)
    let amount := (r.uniformInt minA maxA).1
    let r1 := (r.uniformInt minA maxA).2
    let date := (r1.randrange startD endD).1
    let r2 := (r1.randrange startD endD).2
    let tx : AlertTx := ⟨pair.1, pair.2, amount, date⟩
    if cnt + 1 ≥ freq ∧ tot + amount ≥ aggregated then some ([tx], r2)
    else
      match fanLoop ring subject toSubject minA maxA startD endD freq aggregated
          fuel (k + 1) (cnt + 1) (tot + amount) r2 with
      | none => none
      | some (txs, r3) => some (tx :: txs, r3)

/-- The `fan_in` generator, lines 696-709: senders are the non-subject
members; `itertools.cycle` of an empty list yields no iteration at all. -/
def fanInTxs (members : List Nat) (subject : Nat) (minA maxA startD endD : Int)
    (freq : Nat) (aggregated : Int) (r : Rng) (fuel : Nat) :
    Option (List AlertTx × Rng) :=
  let srcList := members.filter (· ≠ subject)
  match srcList with
  | [] => some ([], r)
  | _ :: _ => fanLoop srcList subject true minA maxA startD endD freq aggregated fuel 0 0 0 r

/-- The `fan_out` generator, lines 711-725. -/
def fanOutTxs (members : List Nat) (subject : Nat) (minA maxA startD endD : Int)
    (freq : Nat) (aggregated : Int) (r : Rng) (fuel : Nat) :
    Option (List AlertTx × Rng) :=
  let dstList := members.filter (· ≠ subject)
  match dstList with
  | [] => some ([], r)
  | _ :: _ => fanLoop dstList subject false minA maxA startD endD freq aggregated fuel 0 0 0 r

/-- Loop body shared by the `bipartite` (lines 727-741) and `stack`
(lines 778-802) patterns: walk a finite list of (src, dst) pairs from
`itertools.product`, breaking only when `transaction_count > transaction_freq`
(strict!) `and total_amount >= aggregated_amount`. -/
def prodLoop (minA maxA startD endD : Int) (freq : Nat) (aggregated : Int) :
    List (Nat × Nat) → Nat → Int → Rng → List AlertTx × Rng
  | [], _, _, r => ([], r)
  | (s, d) :: rest, cnt, tot, r =>
    let amount := (r.uniformInt minA maxA).1
    let r1 := (r.uniformInt minA maxA).2
    let date := (r1.randrange startD endD).1
    let r2 := (r1.randrange startD endD).2
    let tx : AlertTx := ⟨s, d, amount, date⟩
    if cnt + 1 > freq ∧ tot + amount ≥ aggregated then ([tx], r2)
    else
      let rec2 := prodLoop minA maxA startD endD freq aggregated rest (cnt + 1) (tot + amount) r2
      (tx :: rec2.1, rec2.2)

/-- Models `itertools.product(a, b)` in row-major order. -/
def listProd (a b : List Nat) : List (Nat × Nat) :=
  a.flatMap (fun x => b.map (fun y => (x, y)))

/-- The `bipartite` generator, lines 727-741: first half of the members times
the second half, full cross product, with the strict-count break. -/
def bipartiteTxs (members : List Nat) (minA maxA startD endD : Int)
    (freqOpt : Option Nat) (aggregated : Int) (r : Rng) : List AlertTx × Rng :=
  let n := members.length
  let srcList := members.take (n / 2)
  let dstList := members.drop (n / 2)
  let freq := freqOpt.getD (srcList.length * dstList.length)
  prodLoop minA maxA startD endD freq aggregated (listProd srcList dstList) 0 0 r

/-- The `cycle` generator, lines 825-838: one shared amount, `num` sorted
dates, and a ring of `num` edges starting at the subject's index. -/
def cycleDraws : Nat → Int → Int → Rng → List Int × Rng
  | 0, _, _, r => ([], r)
  | n + 1, startD, endD, r =>
    let d := (r.randrange startD endD).1
    let rest := cycleDraws n startD endD (r.randrange startD endD).2
    (d :: rest.1, rest.2)

/-- The `cycle` generator, lines 825-838.  `members.index(subject)` is
`indexOf`; the date list is drawn then sorted ascending. -/
def cycleTxs (members : List Nat) (subject : Nat) (minA maxA startD endD : Int)
    (r : Rng) : List AlertTx × Rng :=
  let subjectIndex := members.indexOf subject
  let num := members.length
  let amount := (r.uniformInt minA maxA).1
  let draws := cycleDraws num startD endD (r.uniformInt minA maxA).2
  let dates := List.insertionSort (· ≤ ·) draws.1
  ((List.range num).map (fun i =>
      let srcI := (subjectIndex + i) % num
      let dstI := (srcI + 1) % num
      (⟨members.getD srcI 0, members.getD dstI 0, amount, dates.getD i 0⟩ : AlertTx)), draws.2)

/-- Generator loop with no threshold checks at all: used by the first two
phases of the `mixed` pattern (lines 752-766) and the first phase of `dense`
(lines 806-810), which generate one transaction per pair unconditionally. -/
def plainLoop (minA maxA startD endD : Int) : List (Nat × Nat) → Rng → List AlertTx × Rng
  | [], r => ([], r)
  | (s, d) :: rest, r =>
    let (amount, r1) := r.uniformInt minA maxA
    let (date, r2) := r1.randrange startD endD
    let (txs, r3) := plainLoop minA maxA startD endD rest r2
    ((⟨s, d, amount, date⟩ : AlertTx) :: txs, r3)

/-- The `stack` generator, lines 778-802: two all-to-all layers sharing one
running count/total, each layer breaking on the strict-count rule. -/
def stackTxs (members : List Nat) (minA maxA startD endD : Int)
    (freqOpt : Option Nat) (aggregated : Int) (r : Rng) : List AlertTx × Rng :=
  let n := members.length
  let srcList := members.take (n / 3)
  let midList := (members.drop (n / 3)).take (n * 2 / 3 - n / 3)
  let dstList := members.drop (n * 2 / 3)
  let freq := freqOpt.getD (srcList.length * midList.length + midList.length * dstList.length)
  let (txs1, r1) := prodLoop minA maxA startD endD freq aggregated (listProd srcList midList) 0 0 r
  let (txs2, r2) := prodLoop minA maxA startD endD freq aggregated (listProd midList dstList)
    txs1.length (sumAmounts txs1) r1
  (txs1 ++ txs2, r2)

/-- The `mixed` generator, lines 743-776: an ungated fan-out phase, an ungated
bipartite phase, then a fan-in phase cycling through the second group with the
dual `>=` stopping rule. -/
def mixedTxs (members : List Nat) (minA maxA startD endD : Int)
    (freqOpt : Option Nat) (aggregated : Int) (r : Rng) (fuel : Nat) :
    Option (List AlertTx × Rng) :=
  let n := members.length
  let src := members.getD 0 0
  let dst := members.getD (n - 1) 0
  let srcList := (members.drop 1).take (n / 2 - 1)
  let dstList := (members.drop (n / 2)).take (n - 1 - n / 2)
  let freq := freqOpt.getD (srcList.length + dstList.length + srcList.length * dstList.length)
  let (txs1, r1) := plainLoop minA maxA startD endD (srcList.map (fun d2 => (src, d2))) r
  let (txs2, r2) := plainLoop minA maxA startD endD (listProd srcList dstList) r1
  match dstList with
  | [] => some (txs1 ++ txs2, r2)
  | d0 :: drest =>
    match fanLoop (d0 :: drest) dst true minA maxA startD endD freq aggregated fuel 0
        (txs1.length + txs2.length) (sumAmounts txs1 + sumAmounts txs2) r2 with
    | none => none
    | some (txs3, r3) => some (txs1 ++ txs2 ++ txs3, r3)

/-- Total version of `Rng.choiceNat` used where the source list is known to be
nonempty (the dead default is never hit in reachable states). -/
def Rng.choiceNatD (r : Rng) (l : List Nat) : Nat × Rng :=
  match r.choiceNat l with
  | none => (0, r)
  | some p => p

/-- Second phase of the `dense` generator, lines 811-823: for every
non-subject member draw one random extra out-neighbour and one random extra
in-neighbour, skipping self-pairs. -/
def densePhase2 (minA maxA startD endD : Int) (dsts : List Nat) :
    List Nat → Rng → List AlertTx × Rng
  | [], r => ([], r)
  | d :: rest, r =>
    let (nb1, r1) := r.choiceNatD dsts
    let (step1, r2) :=
      if d ≠ nb1 then
        let (amount, ra) := r1.uniformInt minA maxA
        let (date, rb) := ra.randrange startD endD
        (([⟨d, nb1, amount, date⟩] : List AlertTx), rb)
      else (([] : List AlertTx), r1)
    let (nb2, r3) := r2.choiceNatD dsts
    let (step2, r4) :=
      if d ≠ nb2 then
        let (amount, ra) := r3.uniformInt minA maxA
        let (date, rb) := ra.randrange startD endD
        (([⟨nb2, d, amount, date⟩] : List AlertTx), rb)
      else (([] : List AlertTx), r3)
    let (txs, r5) := densePhase2 minA maxA startD endD dsts rest r4
    (step1 ++ step2 ++ txs, r5)

/-- The `dense` generator, lines 804-823. -/
def denseTxs (members : List Nat) (subject : Nat) (minA maxA startD endD : Int)
    (r : Rng) : List AlertTx × Rng :=
  let dsts := members.filter (· ≠ subject)
  let (txs1, r1) := plainLoop minA maxA startD endD (dsts.map (fun d => (subject, d))) r
  let (txs2, r2) := densePhase2 minA maxA startD endD dsts dsts r1
  (txs1 ++ txs2, r2)

/-! ## The degree-sequence balancer (`get_degrees`, lines 374-425) -/

/-- Shrink pass of `get_degrees` (lines 397-411): walk both sequences in
parallel, dropping an entry (and decrementing `diff`) exactly when its
in-degree equals its out-degree and `diff > 0`. -/
def shrinkDegrees : List Int → List Int → Nat → List Int × List Int
  | i :: is, o :: os, diff =>
    if i = o ∧ 0 < diff then shrinkDegrees is os (diff - 1)
    else
      (i :: (shrinkDegrees is os diff).1, o :: (shrinkDegrees is os diff).2)
  | _, _, _ => ([], [])

/-- Extend pass of `get_degrees` (lines 413-422): replicate the whole sequence
`numV / totalV` times and pad with degree-1 entries. -/
def extendDegrees (ind outd : List Int) (numV : Nat) : List Int × List Int :=
  let totalV := ind.length
  let repeats := numV / totalV
  let remain := numV - totalV * repeats
  ((List.replicate repeats ind).flatten ++ List.replicate remain 1,
   (List.replicate repeats outd).flatten ++ List.replicate remain 1)

/-- The degree-sequence balancer `get_degrees` (lines 374-425), taking the
already-expanded in/out-degree sequences.  Python exceptions (the two
`assert`s and the division by zero in the extend branch) are `Except.error`. -/
def get_degrees (ind outd : List Int) (numV : Nat) : Except String (List Int × List Int) :=
  if ind.length ≠ outd.length then
    .error "In/Out-degree Sequences must have equal length."
  else if numV < ind.length then
    let p := shrinkDegrees ind outd (ind.length - numV)
    if p.1.sum = p.2.sum then .ok p else .error "Sequences must have equal sums."
  else if ind.length = 0 then
    .error "ZeroDivisionError"
  else
    let p := extendDegrees ind outd numV
    if p.1.sum = p.2.sum then .ok p else .error "Sequences must have equal sums."

/-! ## Transaction graph state and edge insertion -/

/-- One edge of the shared `nx.MultiDiGraph` `self.g`: source, destination and
the multigraph key (which `write_transaction_list` exports as the transaction
ID). -/
structure GEdge where
  src : Nat
  dst : Nat
  key : Nat
deriving Repr, DecidableEq, Inhabited

/-- The mutable state of `TransactionGenerator` that the settled claims
touch: the shared graph (`nodes`/`edges`), the global transaction counter
`tx_id`, the alert counter `alert_id`, the hub list and the subject-candidate
pool, plus the global RNG state. -/
structure GenState where
  nodes : List Nat
  edges : List GEdge
  txId : Nat
  alertId : Nat
  hubs : List Nat
  pool : List Nat
  rng : Rng
deriving Repr, DecidableEq

/-- Key search of `nx.MultiDiGraph.add_edge` when no key is given: start at
the number of parallel edges already present for the ordered pair and take the
first unused value. -/
def nxFreeKeyGo (keys : List Nat) : Nat → Nat → Nat
  | 0, k => k
  | fuel + 1, k => if k ∈ keys then nxFreeKeyGo keys fuel (k + 1) else k

/-- Smallest admissible auto key for a new parallel edge with existing keys
`keys`. -/
def nxFreeKey (keys : List Nat) : Nat :=
  nxFreeKeyGo keys (keys.length + 1) keys.length

/-- Models `self.g.add_edge(src, dst, ...)` WITHOUT an explicit key — the call
used by every alert-pattern generator (e.g. lines 705, 720, 736, 838): the
key is auto-assigned per ordered pair and `self.tx_id` is not touched. -/
def nxAddEdge (edges : List GEdge) (src dst : Nat) : List GEdge :=
  edges ++ [⟨src, dst,
    nxFreeKey ((edges.filter (fun e => e.src = src ∧ e.dst = dst)).map GEdge.key)⟩]

/-- Models `add_transaction` (lines 508-524): endpoint-existence check,
self-loop check, then an edge keyed by the global counter `tx_id`, which is
incremented exactly once. -/
def add_transaction (st : GenState) (src dst : Nat) : Except String GenState :=
  if src ∉ st.nodes then .error ("Account " ++ toString src ++ " does not exist")
  else if dst ∉ st.nodes then .error ("Account " ++ toString dst ++ " does not exist")
  else if src = dst then .error "Self loop is not allowed for transaction networks"
  else .ok { st with edges := st.edges ++ [⟨src, dst, st.txId⟩], txId := st.txId + 1 }

/-! ## Member selection (`get_alert_members`, lines 168-191) -/

/-- Models `candidates.update([hub] + list(self.g.adj[hub].keys()))`:
candidate sets are kept as duplicate-free lists. -/
def setAdd (cands : List Nat) (items : List Nat) : List Nat :=
  cands ++ (items.dedup.filter (fun x => x ∉ cands))

/-- Successor set `self.g.adj[hub].keys()` of the shared multigraph. -/
def adjOf (edges : List GEdge) (hub : Nat) : List Nat :=
  (edges.filterMap (fun e => if e.src = hub then some e.dst else none)).dedup

/-- Inner `while len(candidates) < num` loop of `get_alert_members`
(lines 180-182), with fuel for the unbounded loop. -/
def buildCandidates (hubs : List Nat) (edges : List GEdge) (num : Nat) :
    Nat → List Nat → Rng → Option (List Nat × Rng)
  | 0, cands, r => if num ≤ cands.length then some (cands, r) else none
  | fuel + 1, cands, r =>
    if num ≤ cands.length then some (cands, r)
    else
      match r.choiceNat hubs with
      | none => none
      | some (hub, r1) =>
        buildCandidates hubs edges num fuel (setAdd cands (hub :: adjOf edges hub)) r1

/-- Models `np.random.choice(l, n, False)`: draw `n` elements without
replacement (error, `none`, when the list is exhausted). -/
def sampleWR : Nat → List Nat → Rng → Option (List Nat × Rng)
  | 0, _, r => some ([], r)
  | n + 1, l, r =>
    match r.choiceNat l with
    | none => none
    | some (x, r1) =>
      match sampleWR n (l.erase x) r1 with
      | none => none
      | some (xs, r2) => some (x :: xs, r2)

/-- Models `get_alert_members(num, has_subject)` (lines 168-191).  The state
it reads/writes is passed explicitly: the hub list, the shared edge set, and
the subject-candidate pool.  Returns the subject, the drawn members, the
updated pool and the RNG.  The outer retry loop (`while not found`) carries
its own fuel (first explicit argument after `innerFuel`). -/
def get_alert_members (hubs : List Nat) (edges : List GEdge) (num : Nat) (hasSubject : Bool)
    (innerFuel : Nat) : Nat → List Nat → Rng → Option (Nat × List Nat × List Nat × Rng)
  | 0, _, _ => none
  | fuel + 1, pool, r =>
    match buildCandidates hubs edges num innerFuel [] r with
    | none => none
    | some (cands, r1) =>
      match sampleWR num cands r1 with
      | none => none
      | some (members, r2) =>
        match members.filter (fun x => x ∈ pool) with
        | [] => get_alert_members hubs edges num hasSubject innerFuel fuel pool r2
        | y :: ys =>
          match r2.choiceNat (y :: ys) with
          | none => none
          | some (subject, r3) =>
            some (subject, members, if hasSubject then pool.filter (· ≠ subject) else pool, r3)

/-- A whole run's worth of member selections: fold `get_alert_members` over a
list of `(accounts, has_subject)` requests, threading pool and RNG.  A `none`
entry records a selection that did not finish within fuel (pool unchanged). -/
def runSelections (hubs : List Nat) (edges : List GEdge) (innerFuel outerFuel : Nat) :
    List (Nat × Bool) → List Nat → Rng → List (Option (Nat × List Nat))
  | [], _, _ => []
  | (num, hs) :: rest, pool, r =>
    match get_alert_members hubs edges num hs innerFuel outerFuel pool r with
    | none => none :: runSelections hubs edges innerFuel outerFuel rest pool r
    | some (s, _m, pool2, r2) =>
      some (s, _m) :: runSelections hubs edges innerFuel outerFuel rest pool2 r2

/-! ## The alert-pattern engine (`add_alert_pattern`, lines 651-853) -/

/-- The pattern-name registry `self.alert_types` (lines 123-124).  Note that
it has exactly six entries: `"mixed"` is absent even though
`add_alert_pattern` contains a `"mixed"` branch (lines 743-776). -/
def alertTypes : List (String × Nat) :=
  [("fan_out", 1), ("fan_in", 2), ("cycle", 3), ("bipartite", 4), ("stack", 5), ("dense", 6)]

/-- Row filter of `load_alert_patterns` (lines 633-640): a row is accepted
(and `add_alert_pattern` invoked) only when its pattern type is registered and
its transaction count, if present, is at least the account count. -/
def loadAlertRowAccepted (patternType : String) (accounts : Int)
    (transactionCount : Option Int) : Bool :=
  if (alertTypes.lookup patternType).isNone then false
  else
    match transactionCount with
    | some c => if c < accounts then false else true
    | none => true

/-- Models `add_alert_pattern` (lines 651-853): member selection first, then
parameter preparation, then `modelID = self.alert_types[pattern_type]` — a
`KeyError` when the type is unregistered — then the dispatch over the pattern
branches.  Every generated transaction is appended to the shared graph via
the key-less `add_edge` call.  (The unused parameters `amount_difference`,
`period`, `amount_rounded` and the four country/business flags are omitted:
the source body never reads them.)  Returns the subject and the new state. -/
def add_alert_pattern (st : GenState) (totalSteps : Nat) (defaultMin defaultMax : Int)
    (isFraud : Bool) (patternType : String) (accounts : Nat)
    (individualAmount : Option Int) (aggregatedAmount : Option Int)
    (transactionFreq : Option Nat) (fuel : Nat) : Except String (Nat × GenState) :=
  match get_alert_members st.hubs st.edges accounts isFraud fuel fuel st.pool st.rng with
  | none => .error "selection did not terminate within fuel"
  | some (subject, members, pool2, r0) =>
    let minA := match individualAmount with | none => defaultMin | some a => a
    let maxA := match individualAmount with | none => defaultMax | some a => a * 2
    let aggregated := aggregatedAmount.getD 0
    let startD : Int := 0
    let endD : Int := totalSteps
    match alertTypes.lookup patternType with
    | none => .error ("KeyError: " ++ patternType)
    | some _ =>
      let numMembers := members.length
      let result : Option (List AlertTx × Rng) :=
        if patternType = "fan_in" then
          fanInTxs members subject minA maxA startD endD
            (transactionFreq.getD (numMembers - 1)) aggregated r0 fuel
        else if patternType = "fan_out" then
          fanOutTxs members subject minA maxA startD endD
            (transactionFreq.getD (numMembers - 1)) aggregated r0 fuel
        else if patternType = "bipartite" then
          some (bipartiteTxs members minA maxA startD endD transactionFreq aggregated r0)
        else if patternType = "mixed" then
          mixedTxs members minA maxA startD endD transactionFreq aggregated r0 fuel
        else if patternType = "stack" then
          some (stackTxs members minA maxA startD endD transactionFreq aggregated r0)
        else if patternType = "dense" then
          some (denseTxs members subject minA maxA startD endD r0)
        else if patternType = "cycle" then
          some (cycleTxs members subject minA maxA startD endD r0)
        else
          -- lines 840-842: warning + early return; unreachable, since every
          -- registered type has a branch above and "mixed" never passes the
          -- registry lookup.
          some ([], r0)
      match result with
      | none => .error "pattern generation did not terminate within fuel"
      | some (txs, r1) =>
        .ok (subject,
          { st with
            edges := txs.foldl (fun es tx => nxAddEdge es tx.src tx.dst) st.edges
            pool := pool2
            alertId := st.alertId + 1
            rng := r1 })

/-! ## The configuration-model generator (`_directed_configuration_model`, lines 427-475) -/

/-- Stub list construction (lines 451-455): node `n` appears `deg[n]` times,
nodes visited in order. -/
def stubList : List Nat → Nat → List Nat
  | [], _ => []
  | d :: ds, n => List.replicate d n ++ stubList ds (n + 1)

/-- Fuel-indexed worker for the `random.shuffle` model (structural recursion
so that concrete runs reduce in the kernel); the fuel is instantiated with
the list length, which makes the zero-fuel branch unreachable. -/
def randShuffleGo : Nat → List Nat → Rng → List Nat × Rng
  | 0, l, r => (l, r)
  | fuel + 1, l, r =>
    match l with
    | [] => ([], r)
    | x :: xs =>
      let i := (r.next).1 % (x :: xs).length
      let rest := randShuffleGo fuel ((x :: xs).eraseIdx i) (r.next).2
      ((x :: xs).getD i 0 :: rest.1, rest.2)

/-- Models `random.shuffle(l)`: a permutation of `l` driven entirely by the
RNG state (repeatedly extract a pseudo-randomly chosen position). -/
def randShuffle (l : List Nat) (r : Rng) : List Nat × Rng :=
  randShuffleGo l.length l r

/-- In-place swap of two positions of the in-stub list (line 468). -/
def swapIdx (l : List Nat) (i j : Nat) : List Nat :=
  (l.set i (l.getD j 0)).set j (l.getD i 0)

/-- One iteration of the self-loop resolution scan (lines 460-469): when the
positional pairing at `i` would be a self-loop, swap in the first later
in-stub with a different node ID (if any). -/
def fixStep (outs : List Nat) (ins : List Nat) (i : Nat) : List Nat :=
  let src := outs.getD i 0
  if src = ins.getD i 0 then
    match ((List.range ins.length).drop (i + 1)).find? (fun j => ins.getD j 0 != src) with
    | some j => swapIdx ins i j
    | none => ins
  else ins

/-- The whole self-loop resolution pass over all edge positions. -/
def fixup (outs ins : List Nat) : List Nat :=
  (List.range ins.length).foldl (fixStep outs) ins

/-- Length equalisation of the two degree sequences (lines 439-444). -/
def padDegrees (ind outd : List Nat) : List Nat × List Nat :=
  if ind.length < outd.length then
    (ind ++ List.replicate (outd.length - ind.length) 0, outd)
  else (ind, outd ++ List.replicate (ind.length - outd.length) 0)

/-- Python `max` over a (nonempty) list of naturals. -/
def listMax : List Nat → Nat
  | [] => 0
  | x :: xs => max x (listMax xs)

/-- Core edge construction of the configuration model (lines 451-471): build
both stub lists, shuffle the in-stubs then the out-stubs, run the self-loop
resolution pass over the in-stubs, and pair positionally. -/
def dcmEdges (ind2 outd2 : List Nat) (r0 : Rng) : List (Nat × Nat) :=
  let inStub1 := (randShuffle (stubList ind2 0) r0).1
  let r1 := (randShuffle (stubList ind2 0) r0).2
  let outStub1 := (randShuffle (stubList outd2 0) r1).1
  outStub1.zip (fixup outStub1 inStub1)

/-- Models `_directed_configuration_model` (lines 427-475).  `_ambient` is the
incoming global RNG state; the first effect of the function body is
`random.seed(seed)` (line 438), which replaces it with `Rng.ofSeed seed`.
Returns the edge list in insertion order (`zip(out_stublist, in_stublist)`,
line 471). -/
def _directed_configuration_model (_ambient : Rng) (ind outd : List Nat) (seed : Nat) :
    Except String (List (Nat × Nat)) :=
  if ind.sum ≠ outd.sum then
    .error "Invalid degree sequences. Sequences must have equal sums."
  else
    let r0 := Rng.ofSeed seed
    let p := padDegrees ind outd
    let ind2 := p.1
    let outd2 := p.2
    let numNodes := ind2.length
    if numNodes = 0 ∨ listMax ind2 = 0 then .ok []
    else .ok (dcmEdges ind2 outd2 r0)

/-- Number of slots of the degree table whose in-degree equals their
out-degree (the only slots the shrink pass of `get_degrees` may remove). -/
def countEqPairs (a b : List Int) : Nat :=
  (a.zip b).countP (fun p => decide (p.1 = p.2))

/-- A small concrete generator state (three accounts, two backbone
transactions out of hub `1`, all accounts still subject candidates) used to
evaluate the engine at concrete inputs. -/
def sampleState : GenState :=
  { nodes := [1, 2, 3], edges := [⟨1, 2, 0⟩, ⟨1, 3, 1⟩], txId := 2, alertId := 0,
    hubs := [1], pool := [1, 2, 3], rng := ⟨1⟩ }

/-! # Theorems -/

lemma countEqPairs_nil (b : List Int) : countEqPairs [] b = 0 := by
  simp [countEqPairs]

lemma countEqPairs_cons (i o : Int) (is os : List Int) :
    countEqPairs (i :: is) (o :: os) =
      (if i = o then 1 else 0) + countEqPairs is os := by
  by_cases h : i = o
  · simp [countEqPairs, List.countP_cons, h, Nat.add_comm]
  · simp [countEqPairs, List.countP_cons, h]

lemma countEqPairs_le (a b : List Int) : countEqPairs a b ≤ a.length := by
  calc countEqPairs a b ≤ (a.zip b).length := List.countP_le_length _
  _ ≤ a.length := by rw [List.length_zip]; omega

lemma shrinkDegrees_spec : ∀ (a b : List Int) (d : Nat), a.length = b.length →
    (shrinkDegrees a b d).1.length = a.length - min d (countEqPairs a b) ∧
    (shrinkDegrees a b d).2.length = a.length - min d (countEqPairs a b) ∧
    (shrinkDegrees a b d).1.sum - (shrinkDegrees a b d).2.sum = a.sum - b.sum
  | [], [], d, _ => by simp [shrinkDegrees, countEqPairs_nil]
  | [], _ :: _, _, h => by simp at h
  | _ :: _, [], _, h => by simp at h
  | i :: is, o :: os, d, h => by
    have hlen : is.length = os.length := by simpa using h
    have hle := countEqPairs_le is os
    by_cases hc : i = o ∧ 0 < d
    · have ih := shrinkDegrees_spec is os (d - 1) hlen
      rw [shrinkDegrees, if_pos hc, countEqPairs_cons, if_pos hc.1]
      refine ⟨?_, ?_, ?_⟩
      · rw [ih.1]; simp only [List.length_cons]; omega
      · rw [ih.2.1]; simp only [List.length_cons]; omega
      · rw [ih.2.2]; simp only [List.sum_cons, hc.1]; ring
    · have ih := shrinkDegrees_spec is os d hlen
      rw [shrinkDegrees, if_neg hc]
      refine ⟨?_, ?_, ?_⟩
      · rw [List.length_cons, countEqPairs_cons]
        simp only [List.length_cons, ih.1]
        by_cases he : i = o
        · rw [if_pos he]
          have hd : d = 0 := by
            by_contra hd0
            exact hc ⟨he, Nat.pos_of_ne_zero hd0⟩
          subst hd
          omega
        · rw [if_neg he]
          omega
      · rw [countEqPairs_cons]
        simp only [List.length_cons, ih.2.1]
        by_cases he : i = o
        · rw [if_pos he]
          have hd : d = 0 := by
            by_contra hd0
            exact hc ⟨he, Nat.pos_of_ne_zero hd0⟩
          subst hd
          omega
        · rw [if_neg he]
          omega
      · simp only [List.sum_cons]
        have := ih.2.2
        omega

lemma extendDegrees_spec (ind outd : List Int) (numV : Nat)
    (hlen : ind.length = outd.length) (hsum : ind.sum = outd.sum) :
    (extendDegrees ind outd numV).1.length = numV ∧
    (extendDegrees ind outd numV).2.length = numV ∧
    (extendDegrees ind outd numV).1.sum = (extendDegrees ind outd numV).2.sum := by
  have hdl : numV / ind.length * ind.length ≤ numV := Nat.div_mul_le_self numV ind.length
  have hcomm : ind.length * (numV / ind.length) = numV / ind.length * ind.length :=
    Nat.mul_comm _ _
  refine ⟨?_, ?_, ?_⟩
  · simp only [extendDegrees, List.length_append, List.length_flatten, List.map_replicate,
      List.sum_const_nat, List.length_replicate]
    omega
  · simp only [extendDegrees, List.length_append, List.length_flatten, List.map_replicate,
      List.sum_const_nat, List.length_replicate, ← hlen]
    omega
  · simp only [extendDegrees, List.sum_append, List.sum_flatten, List.map_replicate, hsum]

/-- C3 counterexample: for the input degree table with in-degrees `[1, 2]`,
out-degrees `[2, 1]` (total length L = 2, equal sums) and target account
count N = 1, `get_degrees` succeeds but returns sequences of length 2, not 1:
neither slot has equal in- and out-degree, so the shrink pass removes
nothing. -/
theorem get_degrees_length_counterexample :
    get_degrees [1, 2] [2, 1] 1 = Except.ok ([1, 2], [2, 1]) ∧
      ¬ (([1, 2] : List Int).length = 1 ∧ (([2, 1] : List Int).length = 1)) := by
  constructor
  · rfl
  · decide

/-- C3 (amended): on equal-length, equal-sum input sequences the balancer
returns equal-sum sequences whenever it returns at all; the output length is
exactly the target `numV` in the extend branch (`L ≤ N`, `L > 0`), while in
the shrink branch (`L > N`) the output length is
`L - min (L - N) (countEqPairs ind outd)` — i.e. exactly `N` only when at
least `L - N` slots have equal in/out-degree, and larger than `N`
otherwise. -/
theorem get_degrees_amended (ind outd : List Int) (numV : Nat)
    (hlen : ind.length = outd.length) (hsum : ind.sum = outd.sum) :
    (ind.length ≤ numV → 0 < ind.length →
      get_degrees ind outd numV = Except.ok (extendDegrees ind outd numV) ∧
      (extendDegrees ind outd numV).1.length = numV ∧
      (extendDegrees ind outd numV).2.length = numV ∧
      (extendDegrees ind outd numV).1.sum = (extendDegrees ind outd numV).2.sum) ∧
    (numV < ind.length →
      get_degrees ind outd numV = Except.ok (shrinkDegrees ind outd (ind.length - numV)) ∧
      (shrinkDegrees ind outd (ind.length - numV)).1.length =
        ind.length - min (ind.length - numV) (countEqPairs ind outd) ∧
      (shrinkDegrees ind outd (ind.length - numV)).2.length =
        ind.length - min (ind.length - numV) (countEqPairs ind outd) ∧
      (shrinkDegrees ind outd (ind.length - numV)).1.sum =
        (shrinkDegrees ind outd (ind.length - numV)).2.sum) := by
  constructor
  · intro hle hpos
    have hx := extendDegrees_spec ind outd numV hlen hsum
    refine ⟨?_, hx.1, hx.2.1, hx.2.2⟩
    unfold get_degrees
    rw [if_neg (by omega), if_neg (by omega), if_neg (by omega)]
    simp only [hx.2.2, if_true]
  · intro hlt
    have hs := shrinkDegrees_spec ind outd (ind.length - numV) hlen
    have hsumeq : (shrinkDegrees ind outd (ind.length - numV)).1.sum =
        (shrinkDegrees ind outd (ind.length - numV)).2.sum := by
      have := hs.2.2
      omega
    refine ⟨?_, hs.1, hs.2.1, hsumeq⟩
    unfold get_degrees
    rw [if_neg (by omega), if_pos hlt]
    simp only [hsumeq, if_true]

lemma sumAmounts_nil : sumAmounts [] = 0 := rfl

lemma sumAmounts_cons (tx : AlertTx) (txs : List AlertTx) :
    sumAmounts (tx :: txs) = tx.amount + sumAmounts txs := by
  simp [sumAmounts]

/-- Exact stopping behaviour of the `fan_in` / `fan_out` loop: when it
returns, the dual `>=` condition holds after the last transaction and fails
after every earlier one (every check the loop performed said "continue"). -/
lemma fanLoop_spec : ∀ (fuel : Nat) (ring : List Nat) (subject : Nat) (toSubject : Bool)
    (minA maxA startD endD : Int) (freq : Nat) (aggregated : Int)
    (k cnt : Nat) (tot : Int) (r : Rng) (txs : List AlertTx) (rOut : Rng),
    fanLoop ring subject toSubject minA maxA startD endD freq aggregated fuel k cnt tot r
      = some (txs, rOut) →
    (freq ≤ cnt + txs.length ∧ aggregated ≤ tot + sumAmounts txs) ∧
    ∀ m, 1 ≤ m → m < txs.length →
      ¬(freq ≤ cnt + m ∧ aggregated ≤ tot + sumAmounts (txs.take m))
  | 0, ring, subject, toSubject, minA, maxA, startD, endD, freq, aggregated,
    k, cnt, tot, r, txs, rOut => by
    intro h
    simp [fanLoop] at h
  | fuel + 1, ring, subject, toSubject, minA, maxA, startD, endD, freq, aggregated,
    k, cnt, tot, r, txs, rOut => by
    intro h
    simp only [fanLoop] at h
    by_cases hc : cnt + 1 ≥ freq ∧ tot + (r.uniformInt minA maxA).1 ≥ aggregated
    · rw [if_pos hc] at h
      injection h with h2
      injection h2 with hx hy
      subst hx
      refine ⟨⟨?_, ?_⟩, ?_⟩
      · simp only [List.length_singleton]
        omega
      · simp only [sumAmounts_cons, sumAmounts_nil]
        have := hc.2
        omega
      · intro m h1 h2
        simp only [List.length_singleton] at h2
        omega
    · rw [if_neg hc] at h
      rcases heq : fanLoop ring subject toSubject minA maxA startD endD freq aggregated
          fuel (k + 1) (cnt + 1) (tot + (r.uniformInt minA maxA).1)
          ((r.uniformInt minA maxA).2.randrange startD endD).2 with _ | p
      · rw [heq] at h
        simp at h
      · rw [heq] at h
        obtain ⟨txs2, r3⟩ := p
        injection h with h2
        injection h2 with hx hy
        subst hx
        obtain ⟨⟨hf1, hf2⟩, hpre⟩ :=
          fanLoop_spec fuel ring subject toSubject minA maxA startD endD freq aggregated
            (k + 1) (cnt + 1) (tot + (r.uniformInt minA maxA).1) _ txs2 r3 heq
        refine ⟨⟨?_, ?_⟩, ?_⟩
        · simp only [List.length_cons]
          omega
        · simp only [sumAmounts_cons]
          omega
        · intro m h1 h2
          obtain ⟨m2, rfl⟩ : ∃ m2, m = m2 + 1 := ⟨m - 1, by omega⟩
          intro hcon
          simp only [List.take_succ_cons, sumAmounts_cons] at hcon
          rcases Nat.eq_zero_or_pos m2 with hm0 | hm0
          · subst hm0
            simp only [List.take_zero, sumAmounts_nil] at hcon
            exact hc ⟨by omega, by omega⟩
          · have hlt : m2 < txs2.length := by
              simp only [List.length_cons] at h2
              omega
            exact hpre m2 hm0 hlt ⟨by omega, by omega⟩

/-- Exact stopping behaviour of the `bipartite` / `stack` loop: the result is
the whole pair list (exhaustion) or the break condition — `count` STRICTLY
greater than `transaction_freq` and amount at the floor — holds at the end,
and fails after every earlier transaction. -/
lemma prodLoop_spec : ∀ (pairs : List (Nat × Nat)) (minA maxA startD endD : Int)
    (freq : Nat) (aggregated : Int) (cnt : Nat) (tot : Int) (r : Rng),
    ((prodLoop minA maxA startD endD freq aggregated pairs cnt tot r).1.length = pairs.length ∨
      (freq < cnt + (prodLoop minA maxA startD endD freq aggregated pairs cnt tot r).1.length ∧
        aggregated ≤ tot +
          sumAmounts (prodLoop minA maxA startD endD freq aggregated pairs cnt tot r).1)) ∧
    ∀ m, 1 ≤ m → m < (prodLoop minA maxA startD endD freq aggregated pairs cnt tot r).1.length →
      ¬(freq < cnt + m ∧ aggregated ≤ tot +
          sumAmounts ((prodLoop minA maxA startD endD freq aggregated pairs cnt tot r).1.take m))
  | [], minA, maxA, startD, endD, freq, aggregated, cnt, tot, r => by
    refine ⟨Or.inl rfl, ?_⟩
    intro m h1 h2
    simp [prodLoop] at h2
  | (s, d) :: rest, minA, maxA, startD, endD, freq, aggregated, cnt, tot, r => by
    have ih := prodLoop_spec rest minA maxA startD endD freq aggregated
      (cnt + 1) (tot + (r.uniformInt minA maxA).1)
      ((r.uniformInt minA maxA).2.randrange startD endD).2
    by_cases hc : cnt + 1 > freq ∧ tot + (r.uniformInt minA maxA).1 ≥ aggregated
    · rw [prodLoop, if_pos hc]
      refine ⟨Or.inr ⟨?_, ?_⟩, ?_⟩
      · simp only [List.length_singleton]
        omega
      · simp only [sumAmounts_cons, sumAmounts_nil]
        have := hc.2
        omega
      · intro m h1 h2
        simp only [List.length_singleton] at h2
        omega
    · rw [prodLoop, if_neg hc]
      obtain ⟨hor, hpre⟩ := ih
      refine ⟨?_, ?_⟩
      · rcases hor with hlen | ⟨hf1, hf2⟩
        · exact Or.inl (by simp only [List.length_cons, hlen])
        · refine Or.inr ⟨?_, ?_⟩
          · simp only [List.length_cons]
            omega
          · simp only [sumAmounts_cons]
            omega
      · intro m h1 h2
        obtain ⟨m2, rfl⟩ : ∃ m2, m = m2 + 1 := ⟨m - 1, by omega⟩
        intro hcon
        simp only [List.take_succ_cons, sumAmounts_cons] at hcon
        rcases Nat.eq_zero_or_pos m2 with hm0 | hm0
        · subst hm0
          simp only [List.take_zero, sumAmounts_nil] at hcon
          exact hc ⟨by omega, by omega⟩
        · have hlt : m2 < (prodLoop minA maxA startD endD freq aggregated rest
              (cnt + 1) (tot + (r.uniformInt minA maxA).1)
              ((r.uniformInt minA maxA).2.randrange startD endD).2).1.length := by
            simp only [List.length_cons] at h2
            omega
          exact hpre m2 hm0 hlt ⟨by omega, by omega⟩

/-- C1 counterexample: `bipartite` with six members (senders `[1, 2, 3]`,
receivers `[4, 5, 6]`, nine product pairs), `transaction_freq = 6` and
aggregated floor `0`.  After the sixth transaction both claimed stopping
conditions hold (count `6 >= 6`, accumulated amount `>= 0`), yet the
generator emits a seventh transaction, because its break uses the strict
comparison `transaction_count > transaction_freq` (source line 740). -/
theorem bipartite_overruns_count_target :
    (bipartiteTxs [1, 2, 3, 4, 5, 6] 10 20 0 30 (some 6) 0 ⟨1⟩).1.length = 7 ∧
    6 ≤ ((bipartiteTxs [1, 2, 3, 4, 5, 6] 10 20 0 30 (some 6) 0 ⟨1⟩).1.take 6).length ∧
    0 ≤ sumAmounts ((bipartiteTxs [1, 2, 3, 4, 5, 6] 10 20 0 30 (some 6) 0 ⟨1⟩).1.take 6) := by
  refine ⟨by decide, by decide, by decide⟩

/-- C1 (amended): the seven generators do NOT all share one dual stopping
rule.  What holds is: `fan_in` and `fan_out` stop exactly at the first
transaction after which count `>=` target frequency AND accumulated amount
`>=` aggregated floor (both required, and no earlier or later stop);
`bipartite` (and the two `stack` layers, which run the same loop `prodLoop`)
break only once the count STRICTLY exceeds the target — one transaction too
many when the floor is already met — and also stop silently when their
finite pair list is exhausted; `mixed` applies the dual rule only in its
final fan-in phase, and `dense` and `cycle` ignore both thresholds. -/
theorem alert_stopping_rule_amended :
    (∀ (members : List Nat) (subject : Nat) (minA maxA startD endD : Int)
        (freq : Nat) (aggregated : Int) (r : Rng) (fuel : Nat)
        (txs : List AlertTx) (rOut : Rng),
      fanInTxs members subject minA maxA startD endD freq aggregated r fuel = some (txs, rOut) →
      members.filter (· ≠ subject) ≠ [] →
      (freq ≤ txs.length ∧ aggregated ≤ sumAmounts txs) ∧
      ∀ m, 1 ≤ m → m < txs.length → ¬(freq ≤ m ∧ aggregated ≤ sumAmounts (txs.take m))) ∧
    (∀ (members : List Nat) (subject : Nat) (minA maxA startD endD : Int)
        (freq : Nat) (aggregated : Int) (r : Rng) (fuel : Nat)
        (txs : List AlertTx) (rOut : Rng),
      fanOutTxs members subject minA maxA startD endD freq aggregated r fuel = some (txs, rOut) →
      members.filter (· ≠ subject) ≠ [] →
      (freq ≤ txs.length ∧ aggregated ≤ sumAmounts txs) ∧
      ∀ m, 1 ≤ m → m < txs.length → ¬(freq ≤ m ∧ aggregated ≤ sumAmounts (txs.take m))) ∧
    (∀ (members : List Nat) (minA maxA startD endD : Int) (freqOpt : Option Nat)
        (aggregated : Int) (r : Rng),
      (bipartiteTxs members minA maxA startD endD freqOpt aggregated r).1.length =
          (listProd (members.take (members.length / 2))
            (members.drop (members.length / 2))).length ∨
        (freqOpt.getD ((members.take (members.length / 2)).length *
            (members.drop (members.length / 2)).length) <
            (bipartiteTxs members minA maxA startD endD freqOpt aggregated r).1.length ∧
          aggregated ≤
            sumAmounts (bipartiteTxs members minA maxA startD endD freqOpt aggregated r).1)) ∧
    (∀ (members : List Nat) (minA maxA startD endD : Int) (freqOpt : Option Nat)
        (aggregated : Int) (r : Rng) (m : Nat), 1 ≤ m →
      m < (bipartiteTxs members minA maxA startD endD freqOpt aggregated r).1.length →
      ¬(freqOpt.getD ((members.take (members.length / 2)).length *
          (members.drop (members.length / 2)).length) < m ∧
        aggregated ≤ sumAmounts
          ((bipartiteTxs members minA maxA startD endD freqOpt aggregated r).1.take m))) := by
  refine ⟨?_, ?_, ?_, ?_⟩
  · intro members subject minA maxA startD endD freq aggregated r fuel txs rOut h hne
    rcases hsl : members.filter (· ≠ subject) with _ | ⟨y, ys⟩
    · exact absurd hsl hne
    · rw [fanInTxs, hsl] at h
      have := fanLoop_spec fuel (y :: ys) subject true minA maxA startD endD freq aggregated
        0 0 0 r txs rOut h
      simpa using this
  · intro members subject minA maxA startD endD freq aggregated r fuel txs rOut h hne
    rcases hsl : members.filter (· ≠ subject) with _ | ⟨y, ys⟩
    · exact absurd hsl hne
    · rw [fanOutTxs, hsl] at h
      have := fanLoop_spec fuel (y :: ys) subject false minA maxA startD endD freq aggregated
        0 0 0 r txs rOut h
      simpa using this
  · intro members minA maxA startD endD freqOpt aggregated r
    have := (prodLoop_spec
      (listProd (members.take (members.length / 2)) (members.drop (members.length / 2)))
      minA maxA startD endD
      (freqOpt.getD ((members.take (members.length / 2)).length *
        (members.drop (members.length / 2)).length)) aggregated 0 0 r).1
    simpa [bipartiteTxs] using this
  · intro members minA maxA startD endD freqOpt aggregated r m h1 h2
    have := (prodLoop_spec
      (listProd (members.take (members.length / 2)) (members.drop (members.length / 2)))
      minA maxA startD endD
      (freqOpt.getD ((members.take (members.length / 2)).length *
        (members.drop (members.length / 2)).length)) aggregated 0 0 r).2 m h1
    simp only [bipartiteTxs] at h2 ⊢
    simpa using this (by simpa using h2)

/-- C1 witness: the amended `fan_in` clause applied at a concrete input
(three members, subject `3`, frequency target `4`, floor `55`): the loop runs
past the count target until the amount floor is reached, and stops exactly
then. -/
theorem alert_stopping_rule_amended_witness :
    (4 ≤ ((fanInTxs [1, 2, 3] 3 10 20 0 30 4 55 ⟨1⟩ 99).getD ([], ⟨0⟩)).1.length ∧
      55 ≤ sumAmounts ((fanInTxs [1, 2, 3] 3 10 20 0 30 4 55 ⟨1⟩ 99).getD ([], ⟨0⟩)).1) ∧
    ∀ m, 1 ≤ m → m < ((fanInTxs [1, 2, 3] 3 10 20 0 30 4 55 ⟨1⟩ 99).getD ([], ⟨0⟩)).1.length →
      ¬(4 ≤ m ∧ 55 ≤ sumAmounts (((fanInTxs [1, 2, 3] 3 10 20 0 30 4 55 ⟨1⟩ 99).getD
        ([], ⟨0⟩)).1.take m)) := by
  have happ := (alert_stopping_rule_amended).1 [1, 2, 3] 3 10 20 0 30 4 55 ⟨1⟩ 99
    ((fanInTxs [1, 2, 3] 3 10 20 0 30 4 55 ⟨1⟩ 99).getD ([], ⟨0⟩)).1
    ((fanInTxs [1, 2, 3] 3 10 20 0 30 4 55 ⟨1⟩ 99).getD ([], ⟨0⟩)).2
    (by rfl) (by decide)
  exact happ

/-- C3 witness: the amended theorem applied at the concrete input
`ind = [1, 2]`, `outd = [2, 1]`, `N = 5` (extend branch). -/
theorem get_degrees_amended_witness :
    get_degrees [1, 2] [2, 1] 5 = Except.ok (extendDegrees [1, 2] [2, 1] 5) ∧
    (extendDegrees [1, 2] [2, 1] 5).1.length = 5 ∧
    (extendDegrees [1, 2] [2, 1] 5).2.length = 5 ∧
    (extendDegrees [1, 2] [2, 1] 5).1.sum = (extendDegrees [1, 2] [2, 1] 5).2.sum :=
  (get_degrees_amended [1, 2] [2, 1] 5 rfl rfl).1 (by decide) (by decide)

lemma cycleDraws_length : ∀ (n : Nat) (s e : Int) (r : Rng),
    (cycleDraws n s e r).1.length = n
  | 0, _, _, _ => rfl
  | n + 1, s, e, r => by simp [cycleDraws, cycleDraws_length n]

lemma getD_map_range (n i : Nat) (f : Nat → AlertTx) (d : AlertTx) (h : i < n) :
    ((List.range n).map f).getD i d = f i := by
  simp [List.getD_eq_getElem?_getD, List.getElem?_range h]

lemma nodup_getD_ne (l : List Nat) (hnd : l.Nodup) (a b : Nat)
    (ha : a < l.length) (hb : b < l.length) (hab : a ≠ b) :
    l.getD a 0 ≠ l.getD b 0 := by
  simp only [List.getD_eq_getElem?_getD, List.getElem?_eq_getElem ha,
    List.getElem?_eq_getElem hb, Option.getD_some]
  intro he
  exact hab (hnd.getElem_inj_iff.1 he)

/-- C9 (confirmed): a `cycle` pattern over `members` containing `subject`
generates exactly `|members|` transactions, arranged as the ring
`members[(idx+i) % N] -> members[(idx+i+1) % N]` starting at the subject's
index, all sharing the single drawn amount, with non-decreasing dates along
the walk (the drawn dates are sorted ascending before assignment). -/
theorem cycle_pattern_spec (members : List Nat) (subject : Nat)
    (minA maxA startD endD : Int) (r : Rng) (hmem : subject ∈ members) :
    (cycleTxs members subject minA maxA startD endD r).1.length = members.length ∧
    (∀ i, i < members.length →
      ((cycleTxs members subject minA maxA startD endD r).1.getD i default).src =
        members.getD ((members.indexOf subject + i) % members.length) 0 ∧
      ((cycleTxs members subject minA maxA startD endD r).1.getD i default).dst =
        members.getD ((members.indexOf subject + i + 1) % members.length) 0) ∧
    (∀ tx ∈ (cycleTxs members subject minA maxA startD endD r).1,
      tx.amount = (r.uniformInt minA maxA).1) ∧
    (∀ i j, i ≤ j → j < members.length →
      ((cycleTxs members subject minA maxA startD endD r).1.getD i default).date ≤
      ((cycleTxs members subject minA maxA startD endD r).1.getD j default).date) := by
  have hn : 0 < members.length := List.length_pos.2 (List.ne_nil_of_mem hmem)
  refine ⟨by simp [cycleTxs], ?_, ?_, ?_⟩
  · intro i hi
    constructor
    · rw [show (cycleTxs members subject minA maxA startD endD r).1.getD i default =
          ((List.range members.length).map (fun i =>
            (⟨members.getD ((members.indexOf subject + i) % members.length) 0,
              members.getD (((members.indexOf subject + i) % members.length + 1) %
                members.length) 0,
              (r.uniformInt minA maxA).1,
              (List.insertionSort (· ≤ ·)
                (cycleDraws members.length startD endD (r.uniformInt minA maxA).2).1).getD i 0⟩
              : AlertTx))).getD i default from rfl, getD_map_range _ _ _ _ hi]
    · rw [show (cycleTxs members subject minA maxA startD endD r).1.getD i default =
          ((List.range members.length).map (fun i =>
            (⟨members.getD ((members.indexOf subject + i) % members.length) 0,
              members.getD (((members.indexOf subject + i) % members.length + 1) %
                members.length) 0,
              (r.uniformInt minA maxA).1,
              (List.insertionSort (· ≤ ·)
                (cycleDraws members.length startD endD (r.uniformInt minA maxA).2).1).getD i 0⟩
              : AlertTx))).getD i default from rfl, getD_map_range _ _ _ _ hi]
      show members.getD (((members.indexOf subject + i) % members.length + 1) %
          members.length) 0 = _
      rw [Nat.mod_add_mod]
  · intro tx htx
    simp only [cycleTxs] at htx
    obtain ⟨i, _hi, rfl⟩ := List.mem_map.1 htx
    rfl
  · intro i j hij hj
    rw [show (cycleTxs members subject minA maxA startD endD r).1 =
        ((List.range members.length).map (fun i =>
          (⟨members.getD ((members.indexOf subject + i) % members.length) 0,
            members.getD (((members.indexOf subject + i) % members.length + 1) %
              members.length) 0,
            (r.uniformInt minA maxA).1,
            (List.insertionSort (· ≤ ·)
              (cycleDraws members.length startD endD (r.uniformInt minA maxA).2).1).getD i 0⟩
            : AlertTx))) from rfl,
      getD_map_range _ _ _ _ (by omega), getD_map_range _ _ _ _ hj]
    show (List.insertionSort (· ≤ ·)
        (cycleDraws members.length startD endD (r.uniformInt minA maxA).2).1).getD i 0 ≤
      (List.insertionSort (· ≤ ·)
        (cycleDraws members.length startD endD (r.uniformInt minA maxA).2).1).getD j 0
    have hdl : (List.insertionSort (· ≤ ·)
        (cycleDraws members.length startD endD (r.uniformInt minA maxA).2).1).length =
        members.length := by
      rw [(List.perm_insertionSort (· ≤ ·) _).length_eq, cycleDraws_length]
    have hsorted := List.sorted_insertionSort (· ≤ ·)
      (cycleDraws members.length startD endD (r.uniformInt minA maxA).2).1
    have hi2 : i < (List.insertionSort (· ≤ ·)
        (cycleDraws members.length startD endD (r.uniformInt minA maxA).2).1).length := by
      omega
    have hj2 : j < (List.insertionSort (· ≤ ·)
        (cycleDraws members.length startD endD (r.uniformInt minA maxA).2).1).length := by
      omega
    simp only [List.getD_eq_getElem?_getD, List.getElem?_eq_getElem hi2,
      List.getElem?_eq_getElem hj2, Option.getD_some]
    rcases Nat.lt_or_ge i j with hlt | hge
    · exact List.pairwise_iff_getElem.1 hsorted i j hi2 hj2 hlt
    · have : i = j := by omega
      subst this
      exact le_refl _

/-- C9 witness: the theorem applied to the concrete cycle pattern over
members `[3, 5, 9]` with subject `5`. -/
theorem cycle_pattern_spec_witness :
    (cycleTxs [3, 5, 9] 5 10 20 0 30 ⟨1⟩).1.length = 3 ∧
    ((cycleTxs [3, 5, 9] 5 10 20 0 30 ⟨1⟩).1.getD 0 default).src =
      ([3, 5, 9] : List Nat).getD ((([3, 5, 9] : List Nat).indexOf 5 + 0) % 3) 0 ∧
    ((cycleTxs [3, 5, 9] 5 10 20 0 30 ⟨1⟩).1.getD 2 default).date ≤
      ((cycleTxs [3, 5, 9] 5 10 20 0 30 ⟨1⟩).1.getD 2 default).date ∧
    ((cycleTxs [3, 5, 9] 5 10 20 0 30 ⟨1⟩).1.getD 0 default).date ≤
      ((cycleTxs [3, 5, 9] 5 10 20 0 30 ⟨1⟩).1.getD 2 default).date := by
  have h := cycle_pattern_spec [3, 5, 9] 5 10 20 0 30 ⟨1⟩ (by decide)
  exact ⟨h.1, (h.2.1 0 (by decide)).1, h.2.2.2 2 2 (by decide) (by decide),
    h.2.2.2 0 2 (by decide) (by decide)⟩

/-- C5 counterexample: a `cycle` pattern with a single member generates a
self-transaction (source = destination = the member) and the alert path
writes it into the shared graph through the check-free `add_edge` call —
no `SelfLoopError` is raised, contradicting the claimed invariant. -/
theorem single_member_cycle_self_loop :
    (cycleTxs [7] 7 10 20 0 30 ⟨1⟩).1.length = 1 ∧
    ((cycleTxs [7] 7 10 20 0 30 ⟨1⟩).1.getD 0 default).src = 7 ∧
    ((cycleTxs [7] 7 10 20 0 30 ⟨1⟩).1.getD 0 default).dst = 7 ∧
    nxAddEdge [] 7 7 = [⟨7, 7, 0⟩] := by
  refine ⟨by decide, by decide, by decide, by decide⟩

/-- C5 (amended): the invariant holds for every transaction inserted through
`add_transaction` (both endpoint-existence checks and the self-loop rejection
are enforced there), and the alert generators — which bypass
`add_transaction` — still produce no self-transaction in a `cycle` pattern
over at least two pairwise-distinct members; but a `cycle` over a single
member produces a self-transaction in the shared graph (see the
counterexample), so the claim fails for that boundary case. -/
theorem transaction_endpoints_amended :
    (∀ (st st2 : GenState) (src dst : Nat),
      add_transaction st src dst = Except.ok st2 →
      src ≠ dst ∧ src ∈ st.nodes ∧ dst ∈ st.nodes) ∧
    (∀ (members : List Nat) (subject : Nat) (minA maxA startD endD : Int) (r : Rng),
      members.Nodup → 2 ≤ members.length →
      ∀ tx ∈ (cycleTxs members subject minA maxA startD endD r).1, tx.src ≠ tx.dst) := by
  constructor
  · intro st st2 src dst h
    by_cases h1 : src ∈ st.nodes
    · by_cases h2 : dst ∈ st.nodes
      · by_cases h3 : src = dst
        · rw [add_transaction, if_neg (by simpa using h1), if_neg (by simpa using h2),
            if_pos h3] at h
          exact absurd h (by simp)
        · exact ⟨h3, h1, h2⟩
      · rw [add_transaction, if_neg (by simpa using h1), if_pos h2] at h
        exact absurd h (by simp)
    · rw [add_transaction, if_pos h1] at h
      exact absurd h (by simp)
  · intro members subject minA maxA startD endD r hnd hlen2 tx htx
    simp only [cycleTxs] at htx
    obtain ⟨i, _hi, rfl⟩ := List.mem_map.1 htx
    have hn : 0 < members.length := by omega
    show members.getD ((members.indexOf subject + i) % members.length) 0 ≠
      members.getD (((members.indexOf subject + i) % members.length + 1) % members.length) 0
    have hsrc : (members.indexOf subject + i) % members.length < members.length :=
      Nat.mod_lt _ hn
    rcases Nat.lt_or_ge ((members.indexOf subject + i) % members.length + 1)
        members.length with hcb | hca
    · rw [Nat.mod_eq_of_lt hcb]
      exact nodup_getD_ne members hnd _ _ hsrc hcb (by omega)
    · have heq : (members.indexOf subject + i) % members.length + 1 = members.length := by
        omega
      rw [heq, Nat.mod_self]
      exact nodup_getD_ne members hnd _ _ hsrc hn (by omega)

/-- C5 witness: the amended theorem applied at concrete inputs: a successful
`add_transaction` call (so its endpoints existed and differed), and the first
transaction of a concrete three-member cycle pattern (distinct endpoints). -/
theorem transaction_endpoints_amended_witness :
    ((1 : Nat) ≠ 2 ∧ (1 : Nat) ∈ sampleState.nodes ∧ (2 : Nat) ∈ sampleState.nodes) ∧
    ((cycleTxs [3, 5, 9] 5 10 20 0 30 ⟨2⟩).1.getD 0 default).src ≠
      ((cycleTxs [3, 5, 9] 5 10 20 0 30 ⟨2⟩).1.getD 0 default).dst := by
  constructor
  · exact transaction_endpoints_amended.1 sampleState
      { sampleState with edges := sampleState.edges ++ [⟨1, 2, 2⟩], txId := 3 } 1 2 (by rfl)
  · exact transaction_endpoints_amended.2 [3, 5, 9] 5 10 20 0 30 ⟨2⟩ (by decide) (by decide)
      (((cycleTxs [3, 5, 9] 5 10 20 0 30 ⟨2⟩).1.getD 0 default)) (by decide)

/-- C10 counterexample: two backbone transactions get IDs `0` and `1` from
the global counter, then an alert-pattern edge on the pair `(1, 2)` is added
through the key-less `add_edge`: networkx assigns it per-pair key `1`, the
global counter is not incremented, and the shared graph now contains two
distinct transactions exported with the same ID `1` — IDs are neither unique
nor globally monotone for alert transactions. -/
theorem alert_edge_key_collision :
    add_transaction ⟨[1, 2, 3, 4], [], 0, 0, [], [], ⟨1⟩⟩ 1 2 =
      Except.ok ⟨[1, 2, 3, 4], [⟨1, 2, 0⟩], 1, 0, [], [], ⟨1⟩⟩ ∧
    add_transaction ⟨[1, 2, 3, 4], [⟨1, 2, 0⟩], 1, 0, [], [], ⟨1⟩⟩ 3 4 =
      Except.ok ⟨[1, 2, 3, 4], [⟨1, 2, 0⟩, ⟨3, 4, 1⟩], 2, 0, [], [], ⟨1⟩⟩ ∧
    nxAddEdge [⟨1, 2, 0⟩, ⟨3, 4, 1⟩] 1 2 = [⟨1, 2, 0⟩, ⟨3, 4, 1⟩, ⟨1, 2, 1⟩] ∧
    ¬ (([⟨1, 2, 0⟩, ⟨3, 4, 1⟩, ⟨1, 2, 1⟩] : List GEdge).map GEdge.key).Nodup := by
  refine ⟨by rfl, by rfl, by rfl, by decide⟩

/-- C10 (amended): the unique-monotone-ID discipline holds exactly for the
transactions inserted through `add_transaction`: such an insertion keys the
new edge with the current counter value, increments the counter exactly once,
and preserves both the bound "every key < counter" and key uniqueness.
Alert-pattern transactions bypass this path (key-less `add_edge`, counter
untouched) and can collide with backbone IDs (see the counterexample). -/
theorem tx_id_allocation_amended (st st2 : GenState) (src dst : Nat)
    (hbound : ∀ e ∈ st.edges, e.key < st.txId)
    (hnodup : (st.edges.map GEdge.key).Nodup) :
    add_transaction st src dst = Except.ok st2 →
    st2.edges = st.edges ++ [⟨src, dst, st.txId⟩] ∧
    st2.txId = st.txId + 1 ∧
    (∀ e ∈ st2.edges, e.key < st2.txId) ∧
    (st2.edges.map GEdge.key).Nodup := by
  intro hok
  have hst2 : st2 = { st with edges := st.edges ++ [⟨src, dst, st.txId⟩], txId := st.txId + 1 } := by
    by_cases h1 : src ∈ st.nodes
    · by_cases h2 : dst ∈ st.nodes
      · by_cases h3 : src = dst
        · rw [add_transaction, if_neg (by simpa using h1), if_neg (by simpa using h2),
            if_pos h3] at hok
          exact absurd hok (by simp)
        · rw [add_transaction, if_neg (by simpa using h1), if_neg (by simpa using h2),
            if_neg h3] at hok
          injection hok with h4
          exact h4.symm
      · rw [add_transaction, if_neg (by simpa using h1), if_pos h2] at hok
        exact absurd hok (by simp)
    · rw [add_transaction, if_pos h1] at hok
      exact absurd hok (by simp)
  subst hst2
  refine ⟨rfl, rfl, ?_, ?_⟩
  · intro e he
    show e.key < st.txId + 1
    simp only [List.mem_append, List.mem_singleton] at he
    rcases he with he | rfl
    · have := hbound e he
      omega
    · simp
  · simp only [List.map_append, List.map_cons, List.map_nil]
    rw [List.nodup_append]
    refine ⟨hnodup, List.nodup_singleton _, ?_⟩
    intro k hk
    simp only [List.mem_singleton]
    intro hkeq
    obtain ⟨e, he, rfl⟩ := List.mem_map.1 hk
    have := hbound e he
    omega

/-- C10 witness: the amended theorem applied at a concrete state. -/
theorem tx_id_allocation_amended_witness :
    (⟨[1, 2, 3, 4], [⟨1, 2, 0⟩], 1, 0, [], [], ⟨1⟩⟩ : GenState).edges =
      ([] : List GEdge) ++ [⟨1, 2, 0⟩] ∧
    (⟨[1, 2, 3, 4], [⟨1, 2, 0⟩], 1, 0, [], [], ⟨1⟩⟩ : GenState).txId = 0 + 1 ∧
    (∀ e ∈ (⟨[1, 2, 3, 4], [⟨1, 2, 0⟩], 1, 0, [], [], ⟨1⟩⟩ : GenState).edges,
      e.key < (⟨[1, 2, 3, 4], [⟨1, 2, 0⟩], 1, 0, [], [], ⟨1⟩⟩ : GenState).txId) ∧
    ((⟨[1, 2, 3, 4], [⟨1, 2, 0⟩], 1, 0, [], [], ⟨1⟩⟩ : GenState).edges.map GEdge.key).Nodup :=
  tx_id_allocation_amended ⟨[1, 2, 3, 4], [], 0, 0, [], [], ⟨1⟩⟩
    ⟨[1, 2, 3, 4], [⟨1, 2, 0⟩], 1, 0, [], [], ⟨1⟩⟩ 1 2
    (by simp) (by simp) (by rfl)

/-- C2 (code_bug): `"mixed"` is documented as a valid pattern type
(`add_alert_pattern` docstring, line 657) and a full mixed branch exists
(lines 743-776), but the registry `alert_types` (lines 123-124) has only the
six other entries.  Hence the loader skips every `"mixed"` row with a
warning, and a direct engine call with `"mixed"` raises `KeyError` at the
model-ID lookup (line 689) before the branch could run. -/
theorem mixed_pattern_not_registered :
    alertTypes.lookup "mixed" = none ∧
    loadAlertRowAccepted "mixed" 5 (some 10) = false ∧
    add_alert_pattern sampleState 30 10 20 true "mixed" 3 none none none 10 =
      Except.error "KeyError: mixed" := by
  refine ⟨by rfl, by rfl, by rfl⟩

/-- C4 counterexample: a direct engine invocation with the unrecognized
pattern type `"sudden_surge"` raises `KeyError` (fatal), instead of being a
warning-only no-op: the in-engine warning branch (lines 840-842) sits after
the `alert_types[pattern_type]` lookup (line 689) and is unreachable. -/
theorem unknown_pattern_engine_raises :
    add_alert_pattern sampleState 30 10 20 true "sudden_surge" 3 none none none 10 =
      Except.error "KeyError: sudden_surge" := by
  rfl

/-- C4 (amended): rows with unrecognized pattern types are skipped by the
LOADER with a logged warning, so the engine is never invoked on them during
a run (no transactions, no alert group, no exception); but a direct
`add_alert_pattern` call with an unrecognized type is NOT a warning no-op:
it never returns successfully — the registry lookup raises `KeyError`. -/
theorem unknown_pattern_amended :
    (∀ (pt : String) (accounts : Int) (txc : Option Int),
      alertTypes.lookup pt = none → loadAlertRowAccepted pt accounts txc = false) ∧
    (∀ (st : GenState) (totalSteps : Nat) (dmin dmax : Int) (isFraud : Bool)
        (pt : String) (accounts : Nat) (ia aa : Option Int) (tf : Option Nat)
        (fuel : Nat) (out : Nat × GenState),
      alertTypes.lookup pt = none →
      add_alert_pattern st totalSteps dmin dmax isFraud pt accounts ia aa tf fuel ≠
        Except.ok out) := by
  constructor
  · intro pt accounts txc h
    simp [loadAlertRowAccepted, h]
  · intro st totalSteps dmin dmax isFraud pt accounts ia aa tf fuel out h
    rcases hgm : get_alert_members st.hubs st.edges accounts isFraud fuel fuel st.pool st.rng
      with _ | ⟨subject, members, pool2, r0⟩
    · simp [add_alert_pattern, hgm]
    · simp [add_alert_pattern, hgm, h]

/-- C4 witness: the amended theorem applied at `"sudden_surge"`. -/
theorem unknown_pattern_amended_witness :
    loadAlertRowAccepted "sudden_surge" 5 none = false ∧
    add_alert_pattern sampleState 30 10 20 true "sudden_surge" 3 none none none 10 ≠
      Except.ok (2, sampleState) := by
  constructor
  · exact unknown_pattern_amended.1 "sudden_surge" 5 none (by rfl)
  · exact unknown_pattern_amended.2 sampleState 30 10 20 true "sudden_surge" 3 none none
      none 10 (2, sampleState) (by rfl)

/-! ## Configuration model: permutation and counting lemmas -/

lemma stubList_length : ∀ (ds : List Nat) (s : Nat), (stubList ds s).length = ds.sum
  | [], _ => rfl
  | d :: ds, s => by simp [stubList, stubList_length ds]

lemma count_stubList : ∀ (ds : List Nat) (s m : Nat),
    (stubList ds s).count m = if s ≤ m then ds.getD (m - s) 0 else 0
  | [], s, m => by simp [stubList]
  | d :: ds, s, m => by
    rw [stubList, List.count_append, List.count_replicate, count_stubList ds (s + 1) m]
    by_cases h1 : m = s
    · subst h1
      rw [if_pos (by simp), if_neg (by omega), if_pos (le_refl m)]
      simp
    · by_cases h2 : s ≤ m
      · have h3 : s + 1 ≤ m := by omega
        rw [if_neg (by simp; omega), if_pos h3, if_pos h2]
        have h4 : m - s = (m - s - 1) + 1 := by omega
        rw [h4, List.getD_cons_succ]
        have h5 : m - s - 1 = m - (s + 1) := by omega
        rw [h5]
        omega
      · rw [if_neg (by simp; omega), if_neg (by omega), if_neg h2]

lemma perm_getElem_cons_eraseIdx (l : List Nat) (i : Nat) (hi : i < l.length) :
    l.Perm (l[i] :: l.eraseIdx i) :=
  (List.perm_cons_erase (List.getElem_mem hi)).trans
    ((List.erase_getElem hi).cons _)

lemma randShuffleGo_perm : ∀ (fuel : Nat) (l : List Nat) (r : Rng),
    (randShuffleGo fuel l r).1.Perm l
  | 0, l, r => List.Perm.refl _
  | fuel + 1, [], r => List.Perm.refl _
  | fuel + 1, x :: xs, r => by
    simp only [randShuffleGo]
    have hi : (r.next).1 % (x :: xs).length < (x :: xs).length :=
      Nat.mod_lt _ (Nat.succ_pos _)
    have hgd : (x :: xs).getD ((r.next).1 % (x :: xs).length) 0 =
        (x :: xs)[(r.next).1 % (x :: xs).length] := by
      rw [List.getD_eq_getElem?_getD, List.getElem?_eq_getElem hi, Option.getD_some]
    rw [hgd]
    exact ((randShuffleGo_perm fuel _ _).cons _).trans
      (perm_getElem_cons_eraseIdx _ _ hi).symm

lemma randShuffle_perm (l : List Nat) (r : Rng) : (randShuffle l r).1.Perm l :=
  randShuffleGo_perm l.length l r

lemma set_getD_self : ∀ (l : List Nat) (i : Nat), l.set i (l.getD i 0) = l
  | [], _ => rfl
  | _ :: _, 0 => rfl
  | x :: s, i + 1 => congrArg (x :: ·) (set_getD_self s i)

lemma cons_set_perm : ∀ (t : List Nat) (j : Nat) (x : Nat), j < t.length →
    (t.getD j 0 :: t.set j x).Perm (x :: t)
  | y :: s, 0, x, _ => List.Perm.swap x y s
  | y :: s, j + 1, x, h => by
    have hj : j < s.length := by simpa using h
    show (s.getD j 0 :: y :: s.set j x).Perm (x :: y :: s)
    exact (List.Perm.swap y (s.getD j 0) (s.set j x)).trans
      (((cons_set_perm s j x hj).cons y).trans (List.Perm.swap x y s))

lemma swapIdx_perm_lt : ∀ (l : List Nat) (i j : Nat), i < j → j < l.length →
    (swapIdx l i j).Perm l
  | [], _, _, _, hj => by simp at hj
  | _ :: _, _, 0, hij, _ => by omega
  | y :: s, 0, j + 1, _, hj => by
    have hj2 : j < s.length := by simpa using hj
    show (s.getD j 0 :: s.set j y).Perm (y :: s)
    exact cons_set_perm s j y hj2
  | y :: s, i + 1, j + 1, hij, hj => by
    show (y :: swapIdx s i j).Perm (y :: s)
    exact (swapIdx_perm_lt s i j (by omega) (by simpa using hj)).cons y

lemma swapIdx_perm (l : List Nat) (i j : Nat) (hi : i < l.length) (hj : j < l.length) :
    (swapIdx l i j).Perm l := by
  rcases Nat.lt_trichotomy i j with h | h | h
  · exact swapIdx_perm_lt l i j h hj
  · subst h
    rw [swapIdx, List.set_set, set_getD_self]
  · rw [swapIdx, List.set_comm _ _ _ (by omega)]
    exact swapIdx_perm_lt l j i h hi

lemma fixStep_perm (outs ins : List Nat) (i : Nat) : (fixStep outs ins i).Perm ins := by
  simp only [fixStep]
  by_cases hc : outs.getD i 0 = ins.getD i 0
  · rw [if_pos hc]
    rcases hf : ((List.range ins.length).drop (i + 1)).find?
        (fun j => ins.getD j 0 != outs.getD i 0) with _ | j
    · exact List.Perm.refl ins
    · have hj : j ∈ (List.range ins.length).drop (i + 1) := List.mem_of_find?_eq_some hf
      have hjlen : j < ins.length := List.mem_range.1 (List.mem_of_mem_drop hj)
      have hne : (List.range ins.length).drop (i + 1) ≠ [] := List.ne_nil_of_mem hj
      have hilen : i < ins.length := by
        by_contra hbad
        apply hne
        apply List.length_eq_zero.1
        rw [List.length_drop, List.length_range]
        omega
      exact swapIdx_perm ins i j hilen hjlen
  · rw [if_neg hc]

lemma foldl_fixStep_perm (outs : List Nat) : ∀ (idxs : List Nat) (ins : List Nat),
    (idxs.foldl (fixStep outs) ins).Perm ins
  | [], _ => List.Perm.refl _
  | i :: is, ins =>
    (foldl_fixStep_perm outs is (fixStep outs ins i)).trans (fixStep_perm outs ins i)

lemma fixup_perm (outs ins : List Nat) : (fixup outs ins).Perm ins :=
  foldl_fixStep_perm outs (List.range ins.length) ins

lemma countP_zip_fst : ∀ (as bs : List Nat), as.length = bs.length → ∀ n,
    (as.zip bs).countP (fun e => e.1 == n) = as.count n
  | [], [], _, _ => rfl
  | a :: as, b :: bs, h, n => by
    rw [List.zip_cons_cons, List.countP_cons, countP_zip_fst as bs (by simpa using h) n,
      List.count_cons]
  | [], _ :: _, h, _ => absurd h (by simp)
  | _ :: _, [], h, _ => absurd h (by simp)

lemma countP_zip_snd : ∀ (as bs : List Nat), as.length = bs.length → ∀ n,
    (as.zip bs).countP (fun e => e.2 == n) = bs.count n
  | [], [], _, _ => rfl
  | a :: as, b :: bs, h, n => by
    rw [List.zip_cons_cons, List.countP_cons, countP_zip_snd as bs (by simpa using h) n,
      List.count_cons]
  | [], _ :: _, h, _ => absurd h (by simp)
  | _ :: _, [], h, _ => absurd h (by simp)

lemma getD_append_replicate_zero (l : List Nat) (k n : Nat) :
    (l ++ List.replicate k 0).getD n 0 = l.getD n 0 := by
  rcases Nat.lt_or_ge n l.length with h | h
  · rw [List.getD_eq_getElem?_getD, List.getElem?_append_left h, ← List.getD_eq_getElem?_getD]
  · have h1 : l[n]? = none := List.getElem?_eq_none h
    rw [List.getD_eq_getElem?_getD, List.getElem?_append_right h,
      List.getD_eq_getElem?_getD, h1, List.getElem?_replicate]
    rcases Nat.lt_or_ge (n - l.length) k with h2 | h2
    · rw [if_pos h2]
      rfl
    · rw [if_neg (by omega)]

lemma padDegrees_sum (ind outd : List Nat) :
    (padDegrees ind outd).1.sum = ind.sum ∧ (padDegrees ind outd).2.sum = outd.sum := by
  rw [padDegrees]
  split
  · constructor
    · simp [List.sum_append, List.sum_replicate]
    · rfl
  · constructor
    · rfl
    · simp [List.sum_append, List.sum_replicate]

lemma padDegrees_getD (ind outd : List Nat) (n : Nat) :
    (padDegrees ind outd).1.getD n 0 = ind.getD n 0 ∧
    (padDegrees ind outd).2.getD n 0 = outd.getD n 0 := by
  rw [padDegrees]
  split
  · exact ⟨getD_append_replicate_zero _ _ _, rfl⟩
  · exact ⟨rfl, getD_append_replicate_zero _ _ _⟩

lemma listMax_sum (l : List Nat) (h : listMax l = 0) : l.sum = 0 := by
  induction l with
  | nil => rfl
  | cons x xs ih =>
    rw [listMax] at h
    have h2 : x = 0 ∧ listMax xs = 0 := by
      constructor <;> omega
    simp [List.sum_cons, h2.1, ih h2.2]

lemma getD_of_sum_zero (l : List Nat) (h : l.sum = 0) (n : Nat) : l.getD n 0 = 0 := by
  rcases Nat.lt_or_ge n l.length with h2 | h2
  · rw [List.getD_eq_getElem?_getD, List.getElem?_eq_getElem h2, Option.getD_some]
    exact List.sum_eq_zero_iff.1 h _ (List.getElem_mem h2)
  · rw [List.getD_eq_getElem?_getD, List.getElem?_eq_none h2]
    rfl

lemma dcmEdges_countP (ind2 outd2 : List Nat) (r0 : Rng) (hs : ind2.sum = outd2.sum)
    (n : Nat) :
    (dcmEdges ind2 outd2 r0).countP (fun e => e.1 == n) = outd2.getD n 0 ∧
    (dcmEdges ind2 outd2 r0).countP (fun e => e.2 == n) = ind2.getD n 0 := by
  simp only [dcmEdges]
  have hpin : ((randShuffle (stubList ind2 0) r0).1).Perm (stubList ind2 0) :=
    randShuffle_perm _ _
  have hpout : ((randShuffle (stubList outd2 0)
      (randShuffle (stubList ind2 0) r0).2).1).Perm (stubList outd2 0) :=
    randShuffle_perm _ _
  have hfix : (fixup (randShuffle (stubList outd2 0) (randShuffle (stubList ind2 0) r0).2).1
      (randShuffle (stubList ind2 0) r0).1).Perm ((randShuffle (stubList ind2 0) r0).1) :=
    fixup_perm _ _
  have hlen : ((randShuffle (stubList outd2 0)
      (randShuffle (stubList ind2 0) r0).2).1).length =
      (fixup (randShuffle (stubList outd2 0) (randShuffle (stubList ind2 0) r0).2).1
        (randShuffle (stubList ind2 0) r0).1).length := by
    rw [hpout.length_eq, hfix.length_eq, hpin.length_eq, stubList_length, stubList_length, hs]
  constructor
  · rw [countP_zip_fst _ _ hlen n, hpout.count_eq, count_stubList]
    simp
  · rw [countP_zip_snd _ _ hlen n, (hfix.trans hpin).count_eq, count_stubList]
    simp

/-- C6 (confirmed): the configuration-model generator re-seeds the global RNG
from its `seed` parameter as its first action (line 438), so its output is a
function of the seed and the degree sequences alone: whatever the incoming
global RNG state (`g1`, `g2` — e.g. two repeated runs), the edge lists are
identical. -/
theorem configuration_model_deterministic (g1 g2 : Rng) (ind outd : List Nat) (seed : Nat) :
    _directed_configuration_model g1 ind outd seed =
      _directed_configuration_model g2 ind outd seed := rfl

/-- C7 (confirmed): on equal-sum degree sequences the configuration model
returns an edge list in which every node has exactly its prescribed
out-degree (as edge source) and in-degree (as edge target): the shuffles and
the self-loop-resolving swaps only permute the stub lists, never change stub
multiplicities. -/
theorem configuration_model_degrees (g : Rng) (ind outd : List Nat) (seed : Nat)
    (hsum : ind.sum = outd.sum) (es : List (Nat × Nat))
    (hok : _directed_configuration_model g ind outd seed = Except.ok es) (n : Nat) :
    es.countP (fun e => e.1 == n) = outd.getD n 0 ∧
    es.countP (fun e => e.2 == n) = ind.getD n 0 := by
  simp only [_directed_configuration_model] at hok
  rw [if_neg (not_not_intro hsum)] at hok
  by_cases hz : (padDegrees ind outd).1.length = 0 ∨ listMax (padDegrees ind outd).1 = 0
  · rw [if_pos hz] at hok
    injection hok with hes
    subst hes
    have hps := padDegrees_sum ind outd
    have hsind : ind.sum = 0 := by
      rcases hz with hz | hz
      · have : (padDegrees ind outd).1 = [] := List.length_eq_zero.1 hz
        rw [← hps.1, this]
        rfl
      · rw [← hps.1]
        exact listMax_sum _ hz
    have hsoutd : outd.sum = 0 := by omega
    simp only [List.countP_nil]
    exact ⟨(getD_of_sum_zero outd hsoutd n).symm, (getD_of_sum_zero ind hsind n).symm⟩
  · rw [if_neg hz] at hok
    injection hok with hes
    subst hes
    have hs2 : (padDegrees ind outd).1.sum = (padDegrees ind outd).2.sum := by
      have hps := padDegrees_sum ind outd
      omega
    have hd := dcmEdges_countP (padDegrees ind outd).1 (padDegrees ind outd).2
      (Rng.ofSeed seed) hs2 n
    have hg := padDegrees_getD ind outd n
    rw [hd.1, hd.2, hg.1, hg.2]
    exact ⟨rfl, rfl⟩

/-- C7 witness: the theorem applied to the concrete sequences
`in = [1, 1]`, `out = [2, 0]`, seed `0`: in the produced edge list node `0`
is a source twice and a target once, node `1` a source zero times and a
target once. -/
theorem configuration_model_degrees_witness :
    (([(0, 1), (0, 0)] : List (Nat × Nat)).countP (fun e => e.1 == 0) =
      ([2, 0] : List Nat).getD 0 0 ∧
    ([(0, 1), (0, 0)] : List (Nat × Nat)).countP (fun e => e.2 == 0) =
      ([1, 1] : List Nat).getD 0 0) ∧
    (([(0, 1), (0, 0)] : List (Nat × Nat)).countP (fun e => e.1 == 1) =
      ([2, 0] : List Nat).getD 1 0 ∧
    ([(0, 1), (0, 0)] : List (Nat × Nat)).countP (fun e => e.2 == 1) =
      ([1, 1] : List Nat).getD 1 0) :=
  ⟨configuration_model_degrees ⟨9⟩ [1, 1] [2, 0] 0 rfl [(0, 1), (0, 0)] rfl 0,
   configuration_model_degrees ⟨9⟩ [1, 1] [2, 0] 0 rfl [(0, 1), (0, 0)] rfl 1⟩

/-! ## Member selection: subject exclusivity -/

lemma choiceNat_mem (r : Rng) (l : List Nat) (x : Nat) (r2 : Rng)
    (h : r.choiceNat l = some (x, r2)) : x ∈ l := by
  cases l with
  | nil => simp [Rng.choiceNat] at h
  | cons a as =>
    simp only [Rng.choiceNat] at h
    injection h with h2
    injection h2 with hx _hr
    subst hx
    have hi : (r.next).1 % (a :: as).length < (a :: as).length :=
      Nat.mod_lt _ (Nat.succ_pos _)
    rw [List.getD_eq_getElem?_getD, List.getElem?_eq_getElem hi, Option.getD_some]
    exact List.getElem_mem hi

/-- When a member selection succeeds, the returned subject was drawn from the
intersection of the drawn members with the subject-candidate pool (so it was
in the pool), and the new pool is the old one with the subject removed when
`has_subject` is set (and unchanged otherwise). -/
lemma gam_subject_mem : ∀ (fuel : Nat) (hubs : List Nat) (edges : List GEdge)
    (num : Nat) (hs : Bool) (innerFuel : Nat) (pool : List Nat) (r : Rng)
    (s : Nat) (m : List Nat) (pool2 : List Nat) (r2 : Rng),
    get_alert_members hubs edges num hs innerFuel fuel pool r = some (s, m, pool2, r2) →
    s ∈ pool ∧ pool2 = (if hs then pool.filter (· ≠ s) else pool)
  | 0, hubs, edges, num, hs, innerFuel, pool, r, s, m, pool2, r2 => by
    intro h
    simp [get_alert_members] at h
  | fuel + 1, hubs, edges, num, hs, innerFuel, pool, r, s, m, pool2, r2 => by
    intro h
    rw [get_alert_members] at h
    split at h
    · exact absurd h (by simp)
    · split at h
      · exact absurd h (by simp)
      · split at h
        · exact gam_subject_mem fuel hubs edges num hs innerFuel pool _ s m pool2 r2 h
        · split at h
          · exact absurd h (by simp)
          · next lvar head tail hfilter ovar subject r3 hchoice =>
            injection h with h1
            injection h1 with hA h2
            injection h2 with hB h3
            injection h3 with hC hD
            subst hA
            subst hC
            refine ⟨?_, rfl⟩
            have hsubmem : subject ∈ head :: tail := choiceNat_mem _ _ _ _ hchoice
            rw [← hfilter] at hsubmem
            simpa using (List.mem_filter.1 hsubmem).2

/-- Once an account is out of the pool it is never again returned as a
subject by any later selection of the trace: pools only shrink. -/
lemma runSelections_not_mem : ∀ (reqs : List (Nat × Bool)) (hubs : List Nat)
    (edges : List GEdge) (innerFuel outerFuel : Nat) (pool : List Nat) (r : Rng)
    (x : Nat), x ∉ pool →
    ∀ (k : Nat) (s : Nat) (m : List Nat),
      (runSelections hubs edges innerFuel outerFuel reqs pool r)[k]? =
        some (some (s, m)) → s ≠ x
  | [], hubs, edges, innerFuel, outerFuel, pool, r, x => by
    intro _hx k s m hk
    simp [runSelections] at hk
  | (num, hs) :: rest, hubs, edges, innerFuel, outerFuel, pool, r, x => by
    intro hx k s m hk
    rw [runSelections] at hk
    cases hgm : get_alert_members hubs edges num hs innerFuel outerFuel pool r with
    | none =>
      rw [hgm] at hk
      cases k with
      | zero => simp at hk
      | succ k2 =>
        rw [List.getElem?_cons_succ] at hk
        exact runSelections_not_mem rest hubs edges innerFuel outerFuel pool r x hx k2 s m hk
    | some p =>
      obtain ⟨s0, m0, pool2, r2⟩ := p
      rw [hgm] at hk
      cases k with
      | zero =>
        rw [List.getElem?_cons_zero] at hk
        injection hk with h1
        injection h1 with h2
        injection h2 with h3 _h4
        subst h3
        have := (gam_subject_mem outerFuel hubs edges num hs innerFuel pool r
          s0 m0 pool2 r2 hgm).1
        intro he
        subst he
        exact hx this
      | succ k2 =>
        rw [List.getElem?_cons_succ] at hk
        have hsub := (gam_subject_mem outerFuel hubs edges num hs innerFuel pool r
          s0 m0 pool2 r2 hgm).2
        have hx2 : x ∉ pool2 := by
          rw [hsub]
          cases hs with
          | false => simpa using hx
          | true =>
            simp only [if_true]
            intro hmem
            exact hx (List.mem_of_mem_filter hmem)
        exact runSelections_not_mem rest hubs edges innerFuel outerFuel pool2 r2 x hx2 k2 s m hk

/-- C8 (confirmed): across a whole trace of member selections, an account
returned as subject by a selection with `has_subject = true` is removed from
the candidate pool at that moment and is never returned as the subject of any
later selection of the same run. -/
theorem subject_never_reused : ∀ (reqs : List (Nat × Bool)) (hubs : List Nat)
    (edges : List GEdge) (innerFuel outerFuel : Nat) (pool : List Nat) (r : Rng)
    (i j : Nat) (s : Nat) (m : List Nat) (s2 : Nat) (m2 : List Nat),
    i < j →
    (runSelections hubs edges innerFuel outerFuel reqs pool r)[i]? = some (some (s, m)) →
    reqs[i]?.map Prod.snd = some true →
    (runSelections hubs edges innerFuel outerFuel reqs pool r)[j]? = some (some (s2, m2)) →
    s2 ≠ s
  | [], hubs, edges, innerFuel, outerFuel, pool, r, i, j, s, m, s2, m2 => by
    intro _hij hi _hreq _hj
    simp [runSelections] at hi
  | (num, hs) :: rest, hubs, edges, innerFuel, outerFuel, pool, r, i, j, s, m, s2, m2 => by
    intro hij hi hreq hj
    rw [runSelections] at hi hj
    cases hgm : get_alert_members hubs edges num hs innerFuel outerFuel pool r with
    | none =>
      rw [hgm] at hi hj
      cases i with
      | zero => simp at hi
      | succ i2 =>
        obtain ⟨j2, rfl⟩ : ∃ j2, j = j2 + 1 := ⟨j - 1, by omega⟩
        rw [List.getElem?_cons_succ] at hi hj
        rw [List.getElem?_cons_succ] at hreq
        exact subject_never_reused rest hubs edges innerFuel outerFuel pool r i2 j2
          s m s2 m2 (by omega) hi hreq hj
    | some p =>
      obtain ⟨s0, m0, pool2, r2⟩ := p
      rw [hgm] at hi hj
      obtain ⟨j2, rfl⟩ : ∃ j2, j = j2 + 1 := ⟨j - 1, by omega⟩
      rw [List.getElem?_cons_succ] at hj
      cases i with
      | zero =>
        rw [List.getElem?_cons_zero] at hi
        injection hi with h1
        injection h1 with h2
        injection h2 with h3 _h4
        subst h3
        rw [List.getElem?_cons_zero] at hreq
        have hhs : hs = true := by simpa using hreq
        subst hhs
        have hsub := (gam_subject_mem outerFuel hubs edges num true innerFuel pool r
          s0 m0 pool2 r2 hgm).2
        have hs_not : s0 ∉ pool2 := by
          rw [hsub]
          simp only [if_true]
          intro hmem
          have := List.mem_filter.1 hmem
          simp at this
        exact runSelections_not_mem rest hubs edges innerFuel outerFuel pool2 r2 s0
          hs_not j2 s2 m2 hj
      | succ i2 =>
        rw [List.getElem?_cons_succ] at hi
        rw [List.getElem?_cons_succ] at hreq
        exact subject_never_reused rest hubs edges innerFuel outerFuel pool2 r2 i2 j2
          s m s2 m2 (by omega) hi hreq hj

/-- C8 witness: the theorem applied to a concrete two-selection trace over a
three-account graph with hub `1`: the first fraud selection returns subject
`2`, the second returns subject `1`, and the theorem forces them distinct. -/
theorem subject_never_reused_witness : (1 : Nat) ≠ 2 :=
  subject_never_reused [(2, true), (2, true)] [1] [⟨1, 2, 0⟩, ⟨1, 3, 1⟩] 10 10
    [1, 2, 3] ⟨1⟩ 0 1 2 [1, 2] 1 [1, 2] (by decide) (by rfl) (by rfl) (by rfl)

end AMLSim
